import Mathlib

/-
Verification development for the unit-configuration cleaner
(`unitconfigcleaner.py`).  The pipeline in `clean_units_streamlit` is
embedded shallowly: a table is a header list plus rows of string cells
(the source reads every cell as a string with `dtype=str,
keep_default_na=False`, so no cell is ever missing), the two operator
decisions reviewed through the UI are explicit parameters, and each
stage of the pipeline is a pure function.  Character-level rules are
modelled over ASCII, matching the ASCII character classes used by the
source's regular expression.
-/

set_option maxRecDepth 16000

/-- ASCII whitespace, as stripped by Python `str.strip()` and matched by
the regex class in `contains_special_chars` (space, tab, newline,
carriage return, vertical tab, form feed). -/
def isPySpace (c : Char) : Bool :=
  c == ' ' || c == '\t' || c == '\n' || c == '\r' || c == Char.ofNat 11 || c == Char.ofNat 12

/-- Python `str.strip()` on ASCII input: drop leading and trailing
whitespace. -/
def pyStrip (s : String) : String :=
  String.mk (((s.data.dropWhile isPySpace).reverse.dropWhile isPySpace).reverse)

/-- ASCII uppercasing of one character, as `str.upper()` does on ASCII. -/
def asciiUpperChar (c : Char) : Char :=
  if 97 ≤ c.toNat ∧ c.toNat ≤ 122 then Char.ofNat (c.toNat - 32) else c

/-- ASCII lowercasing of one character, as `str.lower()` does on ASCII. -/
def asciiLowerChar (c : Char) : Char :=
  if 65 ≤ c.toNat ∧ c.toNat ≤ 90 then Char.ofNat (c.toNat + 32) else c

/-- Python `str.upper()` on ASCII strings. -/
def strUpper (s : String) : String := String.mk (s.data.map asciiUpperChar)

/-- Python `str.lower()` on ASCII strings. -/
def strLower (s : String) : String := String.mk (s.data.map asciiLowerChar)

/-- ASCII letter, the `a-zA-Z` part of the source's regex class. -/
def isAsciiAlpha (c : Char) : Bool :=
  decide ((65 ≤ c.toNat ∧ c.toNat ≤ 90) ∨ (97 ≤ c.toNat ∧ c.toNat ≤ 122))

/-- ASCII digit, the `0-9` part of the source's regex class. -/
def isAsciiDigit (c : Char) : Bool := decide (48 ≤ c.toNat ∧ c.toNat ≤ 57)

/-- One character of the class `[a-zA-Z0-9\s-]` accepted by
`contains_special_chars`. -/
def allowedUnitChar (c : Char) : Bool :=
  isAsciiAlpha c || isAsciiDigit c || isPySpace c || c == '-'

/-- Embedding of `contains_special_chars(s)`: strip the value, treat the
N/A variants (`s_str.upper() in ['N/A', 'NA', '']`) as clean, otherwise
flag the row when some character falls outside `[a-zA-Z0-9\s-]`
(`re.search` on the stripped string). -/
def contains_special_chars (s : String) : Bool :=
  if strUpper (pyStrip s) ∈ (["N/A", "NA", ""] : List String) then false
  else (pyStrip s).data.any (fun c => !(allowedUnitChar c))

/-- Embedding of `clean_field(value)`: strip, collapse the values
`n/a`, `na`, empty and `blank` (case-insensitively) to the empty
string, otherwise return the stripped value. -/
def clean_field (value : String) : String :=
  if strLower (pyStrip value) ∈ (["n/a", "na", "", "blank"] : List String) then ""
  else pyStrip value

/-- Python `" - ".join(parts)`. -/
def joinParts : List String → String
  | [] => ""
  | x :: xs => xs.foldl (fun acc y => acc ++ " - " ++ y) x

/-- Embedding of `build_unit_unconditional(row)`.  `unitCell` is the
row's Unit cell (the source reads it from `_CleanUnit`, the stripped
Unit value), `towerCell`/`corpCell` are the Tower/Corporate cells when
those columns were resolved (`hasTower`/`hasCorp`); absent columns
contribute `''`.  The source cleans all three values but concatenates
only the non-empty Tower and Unit parts; the cleaned Corporate value is
computed and then never used. -/
def build_unit (hasTower hasCorp : Bool) (unitCell towerCell corpCell : String) : String :=
  let unit := clean_field (pyStrip unitCell)
  let tower := clean_field (if hasTower then towerCell else "")
  let _corp := clean_field (if hasCorp then corpCell else "")
  let parts := (if tower = "" then [] else [tower]) ++ (if unit = "" then [] else [unit])
  joinParts parts

/-- Whether `pat` begins `l` (character lists). -/
def startsWithChars : List Char → List Char → Bool
  | [], _ => true
  | _ :: _, [] => false
  | p :: ps, c :: cs => p == c && startsWithChars ps cs

/-- Whether `pat` occurs inside `l` as a contiguous run. -/
def hasSubChars : List Char → List Char → Bool
  | pat, [] => pat.isEmpty
  | pat, c :: cs => startsWithChars pat (c :: cs) || hasSubChars pat cs

/-- Python `kw in header.lower()`, the column-matching test of the
source's `next((c for c in df.columns if 'unit' in c.lower()), None)`. -/
def colContains (kw header : String) : Bool := hasSubChars kw.data (strLower header).data

/-- Index of the first header containing `kw` case-insensitively,
mirroring the `next(..., None)` generator over `df.columns`. -/
def findRole (kw : String) : List String → Option Nat
  | [] => none
  | h :: hs => if colContains kw h then some 0 else (findRole kw hs).map (· + 1)

/-- One table row: the list of its cell strings, in column order. -/
abbrev Row := List String

/-- Cell of a row at a column index (pandas rows always carry a value
for every column; out-of-range reads never occur on well-formed input). -/
def cell (r : Row) (i : Nat) : String := r.getD i ""

/-- Cell of a row at an optionally resolved column, `''` when the
column is absent (the `if tower_col else ''` pattern of the source). -/
def optCell (r : Row) (i : Option Nat) : String :=
  match i with
  | some j => cell r j
  | none => ""

/-- An in-memory table: headers plus rows of string cells. -/
structure Table where
  headers : List String
  rows : List Row

/-- Operator decision for the special-character gate
(`review_special_char_rows`): keep / delete / cancel. -/
inductive SpecDecision where
  | keep
  | delete
  | cancel
deriving DecidableEq

/-- Operator decision for the duplicate gate (`review_duplicate_rows`):
keep-all / retain-one / cancel. -/
inductive DupDecision where
  | keepAll
  | retain_one
  | cancel
deriving DecidableEq

/-- Step 1 of `clean_units_streamlit`: compute the problematic rows; if
none, the gate is not invoked and the table is unchanged; otherwise the
operator decision applies (`keep` no mutation, `delete` drops exactly
the problematic rows via `df.drop(problem_rows.index)`, `cancel` stops
processing, modelled as `none`). -/
def applySpecDecision (p : Row → Bool) (rows : List Row) (d : SpecDecision) :
    Option (List Row) :=
  if (rows.filter p).isEmpty then some rows
  else
    match d with
    | .keep => some rows
    | .delete => some (rows.filter (fun r => !(p r)))
    | .cancel => none

/-- Keep-first deduplication by a key, with an accumulator of keys
already seen.  `dedupF k l seen` drops every element whose key was seen
before it (pandas `drop_duplicates(keep='first')`). -/
def dedupF {α κ : Type} [DecidableEq κ] (k : α → κ) : List α → List κ → List α
  | [], _ => []
  | x :: xs, seen =>
    if k x ∈ seen then dedupF k xs seen else x :: dedupF k xs (k x :: seen)

/-- `df.drop_duplicates(subset=key, keep='first')`. -/
def dedupFirst {α κ : Type} [DecidableEq κ] (k : α → κ) (l : List α) : List α :=
  dedupF k l []

/-- `df.duplicated(subset=key, keep=False).any()`: some row's key occurs
at least twice. -/
def hasDupKey {α κ : Type} [DecidableEq κ] (k : α → κ) (l : List α) : Bool :=
  l.any (fun x => decide (2 ≤ (l.filter (fun y => decide (k y = k x))).length))

/-- The `__temp_unit` scratch column: the stripped Unit cell. -/
def stripCell (ui : Nat) (r : Row) : String := pyStrip (cell r ui)

/-- The `__temp_tower` scratch column: `clean_field` of the Tower cell,
or `''` when no Tower column was resolved. -/
def towerKey (ti : Option Nat) (r : Row) : String :=
  match ti with
  | some j => clean_field (cell r j)
  | none => ""

/-- The duplicate key of step 2: the `(__temp_unit, __temp_tower)`
pair. -/
def dupKey (ui : Nat) (ti : Option Nat) (r : Row) : String × String :=
  (stripCell ui r, towerKey ti r)

/-- The display identifier written into the `Unit` column in step 3:
`build_unit_unconditional` applied to the row's resolved cells. -/
def identOf (ui : Nat) (ti ci : Option Nat) (r : Row) : String :=
  build_unit ti.isSome ci.isSome (cell r ui) (optCell r ti) (optCell r ci)

/-- The identifier as a function of the duplicate key alone; used to
relate the two deduplication passes. -/
def identKey (p : String × String) : String :=
  joinParts ((if p.2 = "" then [] else [p.2]) ++
    (if clean_field p.1 = "" then [] else [clean_field p.1]))

/-- Duplicate key of a row of table `t`, with the Tower column resolved
from `t`'s headers. -/
def dupKeyAt (t : Table) (ui : Nat) (r : Row) : String × String :=
  dupKey ui (findRole "tower" t.headers) r

/-- Identifier of a row of table `t`, with Tower and Corporate resolved
from `t`'s headers. -/
def identAt (t : Table) (ui : Nat) (r : Row) : String :=
  identOf ui (findRole "tower" t.headers) (findRole "corporate" t.headers) r

/-- Whether the special-character gate is shown for table `t`
(`if not problem_rows.empty`). -/
def askedSpecB (t : Table) (ui : Nat) : Bool :=
  !((t.rows.filter (fun r => contains_special_chars (cell r ui))).isEmpty)

/-- The input table has no duplicate `(stripped Unit, cleaned Tower)`
pairs (trivially true when the Unit column is missing). -/
def noDupPairs (t : Table) : Bool :=
  match findRole "unit" t.headers with
  | none => true
  | some ui => !(hasDupKey (dupKeyAt t ui) t.rows)

/-- Result of the pipeline up to and including the step-4 deduplication
(`df_unique`), before the export formatting. -/
inductive CoreOut where
  | missingUnit
  | cancelledSpecial
  | cancelledDup
  | finished (rows : List Row) (askedSpec askedDup : Bool)
deriving DecidableEq

/-- Steps 2-4 of `clean_units_streamlit` after the validity decision:
when duplicate `(Unit, Tower)` pairs exist the duplicate gate decision
applies (cancel / keep-all / retain-one with the step-2
`drop_duplicates` on the pair key); otherwise `duplicate_decision`
keeps its `"retain_one"` default and no gate is shown.  Whenever the
effective decision is retain-one, step 4 additionally drops duplicates
of the built `Unit` identifier. -/
def stage2 (t : Table) (ui : Nat) (dd : DupDecision) (rows1 : List Row) : CoreOut :=
  if hasDupKey (dupKeyAt t ui) rows1 then
    match dd with
    | .cancel => .cancelledDup
    | .keepAll => .finished rows1 (askedSpecB t ui) true
    | .retain_one =>
      .finished (dedupFirst (identAt t ui) (dedupFirst (dupKeyAt t ui) rows1))
        (askedSpecB t ui) true
  else
    .finished (dedupFirst (identAt t ui) rows1) (askedSpecB t ui) false

/-- The decision core of `clean_units_streamlit`: resolve the Unit
column (missing is terminal), apply the validity decision, then the
duplicate handling. -/
def core (t : Table) (sd : SpecDecision) (dd : DupDecision) : CoreOut :=
  match findRole "unit" t.headers with
  | none => .missingUnit
  | some ui =>
    match applySpecDecision (fun r => contains_special_chars (cell r ui)) t.rows sd with
    | none => .cancelledSpecial
    | some rows1 => stage2 t ui dd rows1

/-- The final normalization pass
`df_unique.replace({'N/A': '', 'n/a': '', 'na': '', '': ''})`:
an exact-match cell replacement (the `'': ''` entry is a no-op). -/
def replaceNAcell (s : String) : String :=
  if s ∈ (["N/A", "n/a", "na"] : List String) then "" else s

/-- Writing the built identifier into the `Unit` column:
`df['Unit'] = ...` overwrites a column labelled exactly `Unit` when one
exists and otherwise appends a new column. -/
def exportRow (headers : List String) (ident : String) (r : Row) : Row :=
  match headers.findIdx? (fun h => h == "Unit") with
  | some j => r.set j ident
  | none => r ++ [ident]

/-- Final result of processing one table. -/
inductive Outcome where
  | missingUnit
  | cancelledSpecial
  | cancelledDup
  | exported (rows : List Row)
deriving DecidableEq

/-- The whole per-file pipeline `clean_units_streamlit`, with the two
operator decisions passed in: core decisions, then the export rows with
the identifier written into the `Unit` column and the exact-match N/A
replacement applied to every cell. -/
def clean_units (t : Table) (sd : SpecDecision) (dd : DupDecision) : Outcome :=
  match findRole "unit" t.headers with
  | none => .missingUnit
  | some ui =>
    match core t sd dd with
    | .missingUnit => .missingUnit
    | .cancelledSpecial => .cancelledSpecial
    | .cancelledDup => .cancelledDup
    | .finished rows _ _ =>
      .exported (rows.map (fun r => (exportRow t.headers (identAt t ui r) r).map replaceNAcell))

/-- Python `s.replace(pat, rep)` on character lists, scanning left to
right with a non-empty pattern `p :: ps`; a replacement is not
re-scanned within the same call.  The `fuel` argument only bounds the
number of scanning steps (each step consumes at least one input
character), so any `fuel` at least the input length yields the exact
Python semantics. -/
def pyReplaceAux (p : Char) (ps rep : List Char) : Nat → List Char → List Char
  | _, [] => []
  | 0, l => l
  | fuel + 1, c :: cs =>
    if startsWithChars (p :: ps) (c :: cs) then
      rep ++ pyReplaceAux p ps rep fuel (cs.drop ps.length)
    else
      c :: pyReplaceAux p ps rep fuel cs

/-- Python `s.replace(pat, rep)` (every occurrence replaced; the source
only calls it with non-empty patterns). -/
def pyReplace (s pat rep : String) : String :=
  match pat.data with
  | [] => s
  | p :: ps => String.mk (pyReplaceAux p ps rep.data s.data.length s.data)

/-- The download filename of the source:
`file.name.replace('.xlsx', '_cleaned.csv').replace('.csv', '_cleaned.csv')`. -/
def outputFilename (name : String) : String :=
  pyReplace (pyReplace name ".xlsx" "_cleaned.csv") ".csv" "_cleaned.csv"

/-- Modelled from the claim's words (claim C2): the character class
"ASCII letters, digits, space, and hyphen". -/
def claimCharClass (c : Char) : Bool :=
  isAsciiAlpha c || isAsciiDigit c || c == ' ' || c == '-'

/-- Specification of the collapse-to-one outcome (claim C4): the final
rows are the keep-first deduplication by built identifier of the
post-validity rows; they form a sublist (order and contents preserved),
their identifiers are pairwise distinct, and the first row of every
identifier group is retained. -/
def collapsedSpec (t : Table) (sd : SpecDecision) (rows : List Row) : Prop :=
  ∃ ui rows1,
    findRole "unit" t.headers = some ui ∧
    applySpecDecision (fun r => contains_special_chars (cell r ui)) t.rows sd = some rows1 ∧
    rows = dedupFirst (identAt t ui) rows1 ∧
    rows.Sublist rows1 ∧
    List.Pairwise (fun r s => identAt t ui r ≠ identAt t ui s) rows ∧
    (∀ pre x post, rows1 = pre ++ x :: post →
      (∀ z ∈ pre, identAt t ui z ≠ identAt t ui x) → x ∈ rows)

/-- Specification of the silent default collapse (claim C10): the final
rows are the keep-first deduplication by built identifier of the
post-validity rows. -/
def defaultCollapsed (t : Table) (sd : SpecDecision) (rows : List Row) : Prop :=
  ∃ ui rows1,
    findRole "unit" t.headers = some ui ∧
    applySpecDecision (fun r => contains_special_chars (cell r ui)) t.rows sd = some rows1 ∧
    rows = dedupFirst (identAt t ui) rows1

/-! ### Helper lemmas -/

theorem clean_field_empty : clean_field "" = "" := by decide

theorem identOf_eq_identKey (ui : Nat) (ti ci : Option Nat) (r : Row) :
    identOf ui ti ci r = identKey (dupKey ui ti r) := by
  cases ti with
  | none =>
    simp [identOf, identKey, dupKey, towerKey, build_unit, optCell, stripCell,
      clean_field_empty]
  | some j => rfl

theorem identAt_eq_key (t : Table) (ui : Nat) (r : Row) :
    identAt t ui r = identKey (dupKeyAt t ui r) :=
  identOf_eq_identKey ui (findRole "tower" t.headers) (findRole "corporate" t.headers) r

theorem dedupF_sublist {α κ : Type} [DecidableEq κ] (k : α → κ) :
    ∀ (l : List α) (seen : List κ), (dedupF k l seen).Sublist l := by
  intro l
  induction l with
  | nil => intro seen; simp [dedupF]
  | cons x xs ih =>
    intro seen
    by_cases h : k x ∈ seen
    · simp only [dedupF]
      rw [if_pos h]
      exact (ih seen).cons x
    · simp only [dedupF]
      rw [if_neg h]
      exact (ih (k x :: seen)).cons₂ x

theorem dedupF_key_not_seen {α κ : Type} [DecidableEq κ] (k : α → κ) :
    ∀ (l : List α) (seen : List κ) (x : α), x ∈ dedupF k l seen → k x ∉ seen := by
  intro l
  induction l with
  | nil => intro seen x hx; simp [dedupF] at hx
  | cons y ys ih =>
    intro seen x hx
    by_cases h : k y ∈ seen
    · simp only [dedupF] at hx
      rw [if_pos h] at hx
      exact ih seen x hx
    · simp only [dedupF] at hx
      rw [if_neg h] at hx
      rcases List.mem_cons.mp hx with rfl | hx'
      · exact h
      · have h2 := ih (k y :: seen) x hx'
        exact fun hc => h2 (List.mem_cons_of_mem _ hc)

theorem dedupF_pairwise {α κ : Type} [DecidableEq κ] (k : α → κ) :
    ∀ (l : List α) (seen : List κ),
      List.Pairwise (fun a b => k a ≠ k b) (dedupF k l seen) := by
  intro l
  induction l with
  | nil => intro seen; simp [dedupF]
  | cons y ys ih =>
    intro seen
    by_cases h : k y ∈ seen
    · simp only [dedupF]
      rw [if_pos h]
      exact ih seen
    · simp only [dedupF]
      rw [if_neg h]
      refine List.Pairwise.cons ?_ (ih (k y :: seen))
      intro z hz hk
      exact dedupF_key_not_seen k ys (k y :: seen) z hz (by rw [← hk]; exact List.mem_cons_self _ _)

theorem dedupF_first_mem {α κ : Type} [DecidableEq κ] (k : α → κ) :
    ∀ (pre : List α) (x : α) (post : List α) (seen : List κ),
      k x ∉ seen → (∀ z ∈ pre, k z ≠ k x) →
      x ∈ dedupF k (pre ++ x :: post) seen := by
  intro pre
  induction pre with
  | nil =>
    intro x post seen hks _
    simp only [List.nil_append, dedupF]
    rw [if_neg hks]
    exact List.mem_cons_self _ _
  | cons z pre ih =>
    intro x post seen hks hall
    simp only [List.cons_append, dedupF]
    by_cases h : k z ∈ seen
    · rw [if_pos h]
      exact ih x post seen hks (fun w hw => hall w (List.mem_cons_of_mem _ hw))
    · rw [if_neg h]
      refine List.mem_cons_of_mem _ (ih x post (k z :: seen) ?_
        (fun w hw => hall w (List.mem_cons_of_mem _ hw)))
      intro hc
      rcases List.mem_cons.mp hc with he | hs
      · exact hall z (List.mem_cons_self _ _) he.symm
      · exact hks hs

theorem dedupF_comp {α κ₁ κ₂ : Type} [DecidableEq κ₁] [DecidableEq κ₂]
    (f : α → κ₁) (g : α → κ₂) (hfg : ∀ a b, f a = f b → g a = g b) :
    ∀ (l : List α) (sA : List κ₁) (sB : List κ₂),
      (∀ y, f y ∈ sA → g y ∈ sB) →
      dedupF g (dedupF f l sA) sB = dedupF g l sB := by
  intro l
  induction l with
  | nil => intro sA sB _; rfl
  | cons x xs ih =>
    intro sA sB hinv
    by_cases hA : f x ∈ sA
    · simp only [dedupF]
      rw [if_pos hA, if_pos (hinv x hA)]
      exact ih sA sB hinv
    · by_cases hB : g x ∈ sB
      · simp only [dedupF]
        rw [if_neg hA, if_pos hB]
        simp only [dedupF]
        rw [if_pos hB]
        exact ih (f x :: sA) sB (fun y hy => by
          rcases List.mem_cons.mp hy with he | hs
          · rw [hfg y x he]; exact hB
          · exact hinv y hs)
      · simp only [dedupF]
        rw [if_neg hA, if_neg hB]
        simp only [dedupF]
        rw [if_neg hB]
        congr 1
        exact ih (f x :: sA) (g x :: sB) (fun y hy => by
          rcases List.mem_cons.mp hy with he | hs
          · rw [hfg y x he]; exact List.mem_cons_self _ _
          · exact List.mem_cons_of_mem _ (hinv y hs))

theorem dedupFirst_ident_key (t : Table) (ui : Nat) (rows1 : List Row) :
    dedupFirst (identAt t ui) (dedupFirst (dupKeyAt t ui) rows1) =
      dedupFirst (identAt t ui) rows1 := by
  unfold dedupFirst
  exact dedupF_comp (dupKeyAt t ui) (identAt t ui)
    (fun a b hab => by rw [identAt_eq_key, identAt_eq_key, hab])
    rows1 [] [] (by intro y hy; simp at hy)

theorem hasDupKey_sublist {α κ : Type} [DecidableEq κ] (k : α → κ) {l l' : List α}
    (hs : l'.Sublist l) (h : hasDupKey k l = false) : hasDupKey k l' = false := by
  rw [hasDupKey, List.any_eq_false] at h ⊢
  intro x hx
  have hx' : x ∈ l := hs.subset hx
  have h2 := h x hx'
  simp only [decide_eq_true_eq, decide_eq_false_iff_not, not_le] at h2 ⊢
  have hmono : (l'.filter (fun y => decide (k y = k x))).length ≤
      (l.filter (fun y => decide (k y = k x))).length :=
    (hs.filter _).length_le
  omega

theorem applySpec_some_sublist (p : Row → Bool) (rows : List Row) (d : SpecDecision)
    (rows1 : List Row) (h : applySpecDecision p rows d = some rows1) :
    rows1.Sublist rows := by
  unfold applySpecDecision at h
  by_cases he : (rows.filter p).isEmpty
  · rw [if_pos he] at h
    injection h with h'
    rw [← h']
  · rw [if_neg he] at h
    cases d with
    | keep =>
      injection h with h'
      rw [← h']
    | delete =>
      injection h with h'
      rw [← h']
      exact List.filter_sublist _
    | cancel => exact Option.noConfusion h

theorem length_filter_add_not {α : Type} (p : α → Bool) :
    ∀ l : List α,
      (l.filter p).length + (l.filter (fun x => !(p x))).length = l.length := by
  intro l
  induction l with
  | nil => rfl
  | cons x xs ih => cases h : p x <;> simp [List.filter_cons, h] <;> omega

theorem filter_not_all {α : Type} (p : α → Bool) (l : List α) (h : l.filter p = []) :
    l.filter (fun x => !(p x)) = l := by
  rw [List.filter_eq_self]
  intro a ha
  have h2 := List.filter_eq_nil_iff.mp h a ha
  simp only [Bool.not_eq_true] at h2
  simp [h2]

theorem findRole_eq_none (kw : String) :
    ∀ hs : List String, (∀ h ∈ hs, colContains kw h = false) → findRole kw hs = none := by
  intro hs
  induction hs with
  | nil => intro _; rfl
  | cons x xs ih =>
    intro hall
    have hx := hall x (List.mem_cons_self _ _)
    have hrest := ih (fun h hm => hall h (List.mem_cons_of_mem _ hm))
    simp [findRole, hx, hrest]

theorem replaceNAcell_notNA (s : String) :
    replaceNAcell s ≠ "N/A" ∧ replaceNAcell s ≠ "n/a" ∧ replaceNAcell s ≠ "na" := by
  unfold replaceNAcell
  by_cases h : s ∈ (["N/A", "n/a", "na"] : List String)
  · rw [if_pos h]
    exact ⟨by decide, by decide, by decide⟩
  · rw [if_neg h]
    simp only [List.mem_cons, List.not_mem_nil, or_false, not_or] at h
    exact ⟨h.1, h.2.1, h.2.2⟩

theorem core_finished_cases (t : Table) (sd : SpecDecision) (dd : DupDecision)
    (rows : List Row) (a b : Bool) (h : core t sd dd = .finished rows a b) :
    ∃ ui rows1,
      findRole "unit" t.headers = some ui ∧
      applySpecDecision (fun r => contains_special_chars (cell r ui)) t.rows sd = some rows1 ∧
      stage2 t ui dd rows1 = .finished rows a b := by
  cases hu : findRole "unit" t.headers with
  | none =>
    simp only [core, hu] at h
    exact CoreOut.noConfusion h
  | some ui =>
    cases hs : applySpecDecision (fun r => contains_special_chars (cell r ui)) t.rows sd with
    | none =>
      simp only [core, hu, hs] at h
      exact CoreOut.noConfusion h
    | some rows1 =>
      simp only [core, hu, hs] at h
      exact ⟨ui, rows1, rfl, hs, h⟩

theorem stage2_retain_eq (t : Table) (ui : Nat) (rows1 : List Row)
    (hd : hasDupKey (dupKeyAt t ui) rows1 = true) :
    stage2 t ui .retain_one rows1 =
      .finished (dedupFirst (identAt t ui) (dedupFirst (dupKeyAt t ui) rows1))
        (askedSpecB t ui) true := by
  simp [stage2, hd]

theorem stage2_nodup_eq (t : Table) (ui : Nat) (dd : DupDecision) (rows1 : List Row)
    (hd : hasDupKey (dupKeyAt t ui) rows1 = false) :
    stage2 t ui dd rows1 =
      .finished (dedupFirst (identAt t ui) rows1) (askedSpecB t ui) false := by
  simp [stage2, hd]

/-! ### Claim C1 -/

/-- C1, counterexample: two remaining rows with the same Tower/Unit but
different Corporate values collide on the built identifier, yet the
exported identifiers are both `A - 1`: Corporate is not appended and the
final identifiers are not unique. -/
theorem corporate_collision_not_disambiguated :
    clean_units (Table.mk ["Tower", "Unit", "Corporate"] [["A", "1", "X"], ["A", "1", "Y"]])
        .keep .keepAll =
      .exported [["A", "A - 1", "X"], ["A", "A - 1", "Y"]] ∧
    clean_field "X" ≠ clean_field "Y" ∧
    "A - 1" ≠ "A - 1 - X" ∧ "A - 1" ≠ "A - 1 - Y" := by
  decide

/-- C1, amended: the Identifier Builder never appends Corporate — the
built identifier is a function of the Tower and Unit cells only, so
changing the Corporate cell never changes the identifier and colliding
rows keep identical identifiers. -/
theorem identifier_ignores_corporate (ht hc : Bool) (u t c c' : String) :
    build_unit ht hc u t c = build_unit ht hc u t c' := rfl

/-! ### Claim C2 -/

/-- C2, counterexample: `N/A` contains `/` and `a<TAB>b` contains a tab,
both outside the claim's class of ASCII letters, digits, space and
hyphen, yet neither value is flagged: the N/A exemption fires for the
first, and the regex class `\s` admits every whitespace character for
the second. -/
theorem char_class_claim_cex :
    (claimCharClass '/' = false ∧ contains_special_chars "N/A" = false ∧
      '/' ∈ "N/A".data) ∧
    (claimCharClass '\t' = false ∧ contains_special_chars "a\tb" = false ∧
      '\t' ∈ "a\tb".data) := by
  decide

/-- C2, amended: a Unit value whose stripped, uppercased form is not
`N/A`, `NA` or empty, and whose stripped form contains a character
outside ASCII letters, digits, whitespace and hyphen, is flagged
problematic. -/
theorem flagged_when_not_exempt (s : String)
    (h1 : strUpper (pyStrip s) ∉ (["N/A", "NA", ""] : List String))
    (h2 : ∃ c ∈ (pyStrip s).data, allowedUnitChar c = false) :
    contains_special_chars s = true := by
  unfold contains_special_chars
  rw [if_neg h1, List.any_eq_true]
  obtain ⟨c, hm, hc⟩ := h2
  exact ⟨c, hm, by rw [hc]; rfl⟩

/-- C2, witness: the spec's own scenario, `10/10/2020`, is flagged. -/
theorem flagged_when_not_exempt_witness : contains_special_chars "10/10/2020" = true :=
  flagged_when_not_exempt "10/10/2020" (by decide) ⟨'/', by decide, by decide⟩

/-! ### Claim C3 -/

/-- C3, counterexample: with Tower `A` (whose normalized value is
non-empty) and Unit `NA`, the built identifier is `A`, not
`A - NA` as the claim's `{Tower} - {Unit}` shape requires, because the
Unit value itself passes through `clean_field`; with empty Tower the
identifier is empty rather than `NA`. -/
theorem build_unit_claim_cex :
    (build_unit true true "NA" "A" "" = "A" ∧ clean_field "A" ≠ "" ∧ "A" ≠ "A - NA") ∧
    (build_unit true true "NA" "" "" = "" ∧ clean_field "" = "" ∧ "" ≠ "NA") := by
  decide

/-- C3, amended: the built identifier joins the non-empty cleaned parts:
with `T` the cleaned Tower and `U` the cleaned stripped Unit, it is
`T - U` when both are non-empty, `U` when `T` is empty and `T` when `U`
is empty (Unit is itself subject to the N/A-and-blank cleaning); the
spec scenario Tower `N/A`, Unit `5` yields `5`. -/
theorem build_unit_shape (hc : Bool) (u t c : String) :
    (clean_field t ≠ "" → clean_field (pyStrip u) ≠ "" →
      build_unit true hc u t c = clean_field t ++ " - " ++ clean_field (pyStrip u)) ∧
    (clean_field t = "" → build_unit true hc u t c = clean_field (pyStrip u)) ∧
    (clean_field (pyStrip u) = "" → build_unit true hc u t c = clean_field t) ∧
    build_unit true hc "5" "N/A" c = "5" := by
  have e1 : clean_field "N/A" = "" := by decide
  have e2 : clean_field (pyStrip "5") = "5" := by decide
  refine ⟨?_, ?_, ?_, ?_⟩
  · intro h1 h2
    simp [build_unit, h1, h2, joinParts]
  · intro h1
    by_cases h2 : clean_field (pyStrip u) = ""
    · simp [build_unit, h1, h2, joinParts]
    · simp [build_unit, h1, h2, joinParts]
  · intro h2
    by_cases h1 : clean_field t = ""
    · simp [build_unit, h1, h2, joinParts]
    · simp [build_unit, h1, h2, joinParts]
  · simp [build_unit, e1, e2, joinParts]

/-- C3, witness: with Tower `T1` and Unit `7` both surviving cleaning,
the identifier takes the `T - U` shape. -/
theorem build_unit_shape_witness :
    build_unit true true "7" "T1" "" = clean_field "T1" ++ " - " ++ clean_field (pyStrip "7") :=
  (build_unit_shape true "7" "T1" "").1 (by decide) (by decide)

/-! ### Claim C5 -/

/-- C5: a Unit value whose stripped, uppercased form is `N/A`, `NA` or
empty is never flagged, whatever other characters it contains. -/
theorem na_unit_always_clean (s : String)
    (h : strUpper (pyStrip s) ∈ (["N/A", "NA", ""] : List String)) :
    contains_special_chars s = false := by
  unfold contains_special_chars
  rw [if_pos h]

/-- C5, witness: `  n/a ` (lower case, surrounded by whitespace) is
clean. -/
theorem na_unit_always_clean_witness : contains_special_chars "  n/a " = false :=
  na_unit_always_clean "  n/a " (by decide)

/-! ### Claim C9 -/

/-- C9: evaluation of the download-filename expression.  For a `.csv`
input the name is `base_cleaned.csv` as the spec states, but for an
`.xlsx` input the chained `str.replace` calls rewrite the `.csv`
produced by the first replacement again, yielding
`base_cleaned_cleaned.csv`. -/
theorem output_filename_double_suffix :
    outputFilename "data.xlsx" = "data_cleaned_cleaned.csv" ∧
    outputFilename "data.csv" = "data_cleaned.csv" := by
  decide

/-! ### Claim C7 -/

/-- C7: the delete decision produces exactly the subtable of
non-problematic rows (a filter, hence order and contents preserved and
a sublist of the input), the row count drops by exactly the number of
problematic rows, and the keep decision returns the table unchanged. -/
theorem delete_removes_exactly_problematic (ui : Nat) (rows : List Row) :
    applySpecDecision (fun r => contains_special_chars (cell r ui)) rows .delete =
      some (rows.filter (fun r => !(contains_special_chars (cell r ui)))) ∧
    (rows.filter (fun r => !(contains_special_chars (cell r ui)))).length +
        (rows.filter (fun r => contains_special_chars (cell r ui))).length = rows.length ∧
    (rows.filter (fun r => !(contains_special_chars (cell r ui)))).Sublist rows ∧
    applySpecDecision (fun r => contains_special_chars (cell r ui)) rows .keep = some rows := by
  refine ⟨?_, ?_, List.filter_sublist _, ?_⟩
  · unfold applySpecDecision
    by_cases he : (rows.filter (fun r => contains_special_chars (cell r ui))).isEmpty
    · rw [if_pos he]
      have hnil : rows.filter (fun r => contains_special_chars (cell r ui)) = [] := by
        simpa [List.isEmpty_iff] using he
      rw [filter_not_all _ _ hnil]
    · rw [if_neg he]
  · have h := length_filter_add_not (fun r => contains_special_chars (cell r ui)) rows
    omega
  · unfold applySpecDecision
    by_cases he : (rows.filter (fun r => contains_special_chars (cell r ui))).isEmpty
    · rw [if_pos he]
    · rw [if_neg he]

/-! ### Claim C8 -/

/-- C8: when no header contains `unit` case-insensitively, the pipeline
terminates with the missing-Unit-column outcome; in particular nothing
is exported. -/
theorem missing_unit_is_terminal (t : Table) (sd : SpecDecision) (dd : DupDecision)
    (h : ∀ hd ∈ t.headers, colContains "unit" hd = false) :
    core t sd dd = .missingUnit ∧ clean_units t sd dd = .missingUnit ∧
    ∀ rows, clean_units t sd dd ≠ .exported rows := by
  have hnone := findRole_eq_none "unit" t.headers h
  have h1 : core t sd dd = .missingUnit := by simp [core, hnone]
  have h2 : clean_units t sd dd = .missingUnit := by simp [clean_units, hnone]
  refine ⟨h1, h2, fun rows hc => ?_⟩
  rw [h2] at hc
  exact Outcome.noConfusion hc

/-- C8, witness: a table whose headers are `Name` and `Floor` fails with
the missing-Unit outcome. -/
theorem missing_unit_is_terminal_witness :
    clean_units (Table.mk ["Name", "Floor"] [["a", "b"]]) .keep .keepAll = .missingUnit :=
  (missing_unit_is_terminal (Table.mk ["Name", "Floor"] [["a", "b"]]) .keep .keepAll
    (by decide)).2.1

/-! ### Claim C6 -/

/-- C6, counterexample: a `NA` cell (upper case) survives the final
replacement pass unchanged, although it is a case-insensitive form of
`NA`: the replacement dictionary matches exactly `N/A`, `n/a`, `na`
only. -/
theorem export_keeps_uppercase_na_cex :
    clean_units (Table.mk ["Unit", "Notes"] [["5", "NA"]]) .keep .retain_one =
      .exported [["5", "NA"]] ∧
    strLower "NA" = "na" ∧ "NA" ≠ "" := by
  decide

/-- C6, amended: the final pass replaces cells exactly equal to `N/A`,
`n/a` or `na` by the empty string in every column, so no exported cell
equals any of those three strings; other case forms pass through. -/
theorem export_contains_no_exact_na (t : Table) (sd : SpecDecision) (dd : DupDecision)
    (rows : List Row) (h : clean_units t sd dd = .exported rows) :
    ∀ r ∈ rows, ∀ c ∈ r, c ≠ "N/A" ∧ c ≠ "n/a" ∧ c ≠ "na" := by
  intro r hr c hc
  cases hu : findRole "unit" t.headers with
  | none =>
    simp only [clean_units, hu] at h
    exact Outcome.noConfusion h
  | some ui =>
    cases hco : core t sd dd with
    | missingUnit =>
      simp only [clean_units, hu, hco] at h
      exact Outcome.noConfusion h
    | cancelledSpecial =>
      simp only [clean_units, hu, hco] at h
      exact Outcome.noConfusion h
    | cancelledDup =>
      simp only [clean_units, hu, hco] at h
      exact Outcome.noConfusion h
    | finished rows0 a b =>
      simp only [clean_units, hu, hco] at h
      injection h with hmap
      rw [← hmap] at hr
      rcases List.mem_map.mp hr with ⟨r0, _, rfl⟩
      rcases List.mem_map.mp hc with ⟨s, _, rfl⟩
      exact replaceNAcell_notNA s

/-- C6, witness: a table with an `n/a` cell exports it as the empty
string, and the empty string is none of the three replaced values. -/
theorem export_contains_no_exact_na_witness :
    clean_units (Table.mk ["Unit", "Notes"] [["5", "n/a"]]) .keep .retain_one =
      .exported [["5", ""]] ∧
    ("" ≠ "N/A" ∧ "" ≠ "n/a" ∧ "" ≠ "na") :=
  ⟨by decide,
    export_contains_no_exact_na (Table.mk ["Unit", "Notes"] [["5", "n/a"]]) .keep .retain_one
      [["5", ""]] (by decide) ["5", ""] (by decide) "" (by decide)⟩

/-! ### Claim C4 -/

/-- C4: under the retain-one decision the finished rows are exactly the
keep-first deduplication of the post-validity rows by built identifier:
a sublist of the input rows, with pairwise distinct identifiers, and
containing the first row of every identifier group. -/
theorem collapse_to_one_retains_first (t : Table) (sd : SpecDecision)
    (rows : List Row) (a b : Bool)
    (h : core t sd .retain_one = .finished rows a b) :
    collapsedSpec t sd rows := by
  obtain ⟨ui, rows1, hu, hs, h2⟩ := core_finished_cases t sd .retain_one rows a b h
  have hrows : rows = dedupFirst (identAt t ui) rows1 := by
    by_cases hd : hasDupKey (dupKeyAt t ui) rows1 = true
    · rw [stage2_retain_eq t ui rows1 hd] at h2
      injection h2 with e1 e2 e3
      rw [← e1, dedupFirst_ident_key]
    · rw [stage2_nodup_eq t ui .retain_one rows1 (by simpa using hd)] at h2
      injection h2 with e1 e2 e3
      rw [← e1]
  refine ⟨ui, rows1, hu, hs, hrows, ?_, ?_, ?_⟩
  · rw [hrows]
    exact dedupF_sublist _ rows1 []
  · rw [hrows]
    exact dedupF_pairwise _ rows1 []
  · intro pre x post hsplit hfirst
    rw [hrows, hsplit]
    exact dedupF_first_mem _ pre x post [] (by simp) hfirst

/-- C4, witness: the spec's own scenario, two identical `A`/`101` rows
plus a `B`/`202` row, collapses to the first of each group. -/
theorem collapse_to_one_retains_first_witness :
    collapsedSpec (Table.mk ["Tower", "Unit"] [["A", "101"], ["A", "101"], ["B", "202"]])
      .keep [["A", "101"], ["B", "202"]] :=
  collapse_to_one_retains_first
    (Table.mk ["Tower", "Unit"] [["A", "101"], ["A", "101"], ["B", "202"]])
    .keep [["A", "101"], ["B", "202"]] false true (by decide)

/-! ### Claim C10 -/

/-- C10: when the input table has no duplicate `(stripped Unit, cleaned
Tower)` pairs, the duplicate gate is never shown (the outcome is
independent of the duplicate decision and its asked-duplicates flag is
false), yet the default retain-one policy still applies: the finished
rows are the keep-first deduplication of the post-validity rows by
built identifier. -/
theorem no_dup_pairs_silent_collapse (t : Table) (sd : SpecDecision) (dd dd' : DupDecision)
    (h : noDupPairs t = true) :
    core t sd dd = core t sd dd' ∧
    ∀ rows a b, core t sd dd = .finished rows a b → b = false ∧ defaultCollapsed t sd rows := by
  cases hu : findRole "unit" t.headers with
  | none =>
    refine ⟨by simp [core, hu], fun rows a b hc => ?_⟩
    simp only [core, hu] at hc
    exact CoreOut.noConfusion hc
  | some ui =>
    have hnd : hasDupKey (dupKeyAt t ui) t.rows = false := by
      have h' := h
      unfold noDupPairs at h'
      rw [hu] at h'
      simpa using h'
    cases hs : applySpecDecision (fun r => contains_special_chars (cell r ui)) t.rows sd with
    | none =>
      refine ⟨by simp [core, hu, hs], fun rows a b hc => ?_⟩
      simp only [core, hu, hs] at hc
      exact CoreOut.noConfusion hc
    | some rows1 =>
      have hsub : rows1.Sublist t.rows := applySpec_some_sublist _ _ _ _ hs
      have hnd1 : hasDupKey (dupKeyAt t ui) rows1 = false := hasDupKey_sublist _ hsub hnd
      refine ⟨?_, fun rows a b hc => ?_⟩
      · simp only [core, hu, hs]
        rw [stage2_nodup_eq t ui dd rows1 hnd1, stage2_nodup_eq t ui dd' rows1 hnd1]
      · simp only [core, hu, hs] at hc
        rw [stage2_nodup_eq t ui dd rows1 hnd1] at hc
        injection hc with e1 e2 e3
        exact ⟨e3.symm, ui, rows1, hu, hs, e1.symm⟩

/-- C10, witness: two rows with distinct `(Unit, Tower)` pairs but equal
built identifiers (`A`/`1 - 2` and `A - 1`/`2`, both building
`A - 1 - 2`): the outcome is the same under keep-all and retain-one, and
the second row is silently dropped. -/
theorem no_dup_pairs_silent_collapse_witness :
    core (Table.mk ["Tower", "Unit"] [["A", "1 - 2"], ["A - 1", "2"]]) .keep .keepAll =
      .finished [["A", "1 - 2"]] false false ∧
    core (Table.mk ["Tower", "Unit"] [["A", "1 - 2"], ["A - 1", "2"]]) .keep .keepAll =
      core (Table.mk ["Tower", "Unit"] [["A", "1 - 2"], ["A - 1", "2"]]) .keep .retain_one :=
  ⟨by decide,
    (no_dup_pairs_silent_collapse (Table.mk ["Tower", "Unit"] [["A", "1 - 2"], ["A - 1", "2"]])
      .keep .keepAll .retain_one (by decide)).1⟩
